import Mathlib

/-
Verification of the quiz session engine in `App.py` (AI Finance Battleboard).

The embedding translates the module-level Streamlit script into pure Lean
functions: the per-browser-tab `st.session_state` becomes an explicit
`SessionState` record, the `user_scores.csv` file becomes an
`Option (List ScoreRow)` (with `none` standing for "the file does not exist"),
and each rerun of the script triggered by a user interaction becomes one
application of `scriptRun` to an `Event`.  Wall-clock time (`time.time()`)
is passed in explicitly as a natural number of seconds.

Library collaborators are modelled by their documented behaviour:
`random.seed(s); random.shuffle(l)` is a Fisher-Yates shuffle driven by a
generator state derived deterministically from the seed string (the concrete
pseudo-random stream is an LCG stand-in for the Mersenne Twister; every
property proved here depends only on seed-determinism and on the shuffle
being a permutation, not on the particular stream), and pandas
`sort_values(by, ascending=False)` computes a stable ascending argsort and
reverses it (pandas `nargsort`: `indexer = argsort(); if not ascending:
indexer = indexer[::-1]`).
-/

namespace FinanceQuiz

/-- A question record as stored in `ai_finance_mcqs.json`: the code accesses
the fields `q["question"]`, `q["options"]` and `q["answer"]`. -/
structure Question where
  question : String
  options : List String
  answer : String
deriving DecidableEq, Repr

/-- A row of `user_scores.csv`: columns `RollNumber`, `Name`, `Score`. -/
structure ScoreRow where
  rollNumber : String
  name : String
  score : Nat
deriving DecidableEq, Repr

/-! ### Seeded shuffle: `get_user_mcqs` -/

/-- Deterministic generator step (stand-in for the Mersenne Twister stream
behind `random.shuffle`; a linear congruential step). -/
def lcgNext (s : Nat) : Nat := (1103515245 * s + 12345) % 2 ^ 31

/-- Deterministic hash of the seed string, modelling `random.seed(str)`
initialising the generator state from the string. -/
def stringSeed (s : String) : Nat :=
  s.foldl (fun a c => (a * 31 + c.toNat) % 2 ^ 31) 7

/-- Exchange the elements at positions `i` and `j` of a list (identity when
either index is out of range).  This is the elementary step of the
Fisher-Yates shuffle `x[i], x[j] = x[j], x[i]`. -/
def listSwap (l : List α) (i j : Nat) : List α :=
  match l[i]?, l[j]? with
  | some x, some y => (l.set i y).set j x
  | _, _ => l

/-- The Fisher-Yates loop of `random.shuffle`:
`for i in reversed(range(1, len(x))): j = randbelow(i+1); swap(x[i], x[j])`.
`fyLoop i g l` processes indices `i, i-1, ..., 1`, threading the generator
state `g`. -/
def fyLoop : Nat → Nat → List Question → Nat × List Question
  | 0, g, l => (g, l)
  | i + 1, g, l =>
    let g' := lcgNext g
    let j := g' % (i + 2)
    fyLoop i g' (listSwap l (i + 1) j)

/-- `random.seed(seed); random.shuffle(l)` as a pure function of the seed. -/
def pyShuffle (seed : String) (l : List Question) : List Question :=
  (fyLoop (l.length - 1) (stringSeed seed) l).2

/-- `get_user_mcqs(seed)` from `App.py`: seed the generator from the roll
number, shuffle the loaded pool, return the first 20 questions.  The pool
(the parsed contents of `ai_finance_mcqs.json`, returned by `load_mcqs`)
is passed explicitly. -/
def get_user_mcqs (seed : String) (pool : List Question) : List Question :=
  (pyShuffle seed pool).take 20

/-! Permutation facts about the shuffle. -/

theorem get_cons_set_perm : ∀ (l : List α) (j : Nat) (hj : j < l.length) (x : α),
    (l.get ⟨j, hj⟩ :: l.set j x).Perm (x :: l)
  | a :: tl, 0, _, x => by
    simp only [List.get_cons_zero, List.set_cons_zero]
    exact List.Perm.swap x a tl
  | a :: tl, j + 1, hj, x => by
    have ih := get_cons_set_perm tl j (by simpa using Nat.lt_of_succ_lt_succ hj) x
    simp only [List.get_cons_succ, List.set_cons_succ]
    have h1 := List.Perm.swap a (tl.get ⟨j, by simpa using Nat.lt_of_succ_lt_succ hj⟩)
      (tl.set j x)
    have h3 := List.Perm.swap x a tl
    exact (h1.trans (ih.cons a)).trans h3

theorem set_set_swap_perm : ∀ (l : List α) (i j : Nat) (hi : i < l.length)
    (hj : j < l.length), ((l.set i (l.get ⟨j, hj⟩)).set j (l.get ⟨i, hi⟩)).Perm l
  | a :: tl, 0, 0, _, _ => by simp
  | a :: tl, 0, j + 1, _, hj => by
    simp only [List.get_cons_succ, List.get_cons_zero, List.set_cons_zero,
      List.set_cons_succ]
    exact get_cons_set_perm tl j (by simpa using Nat.lt_of_succ_lt_succ hj) a
  | a :: tl, i + 1, 0, hi, _ => by
    simp only [List.get_cons_succ, List.get_cons_zero, List.set_cons_zero,
      List.set_cons_succ]
    exact get_cons_set_perm tl i (by simpa using Nat.lt_of_succ_lt_succ hi) a
  | a :: tl, i + 1, j + 1, hi, hj => by
    simp only [List.get_cons_succ, List.set_cons_succ]
    exact (set_set_swap_perm tl i j (by simpa using Nat.lt_of_succ_lt_succ hi)
      (by simpa using Nat.lt_of_succ_lt_succ hj)).cons a

theorem listSwap_perm (l : List α) (i j : Nat) : (listSwap l i j).Perm l := by
  unfold listSwap
  cases hx : l[i]? with
  | none => exact List.Perm.refl l
  | some x =>
    cases hy : l[j]? with
    | none => exact List.Perm.refl l
    | some y =>
      obtain ⟨hi, hxe⟩ := List.getElem?_eq_some.mp hx
      obtain ⟨hj, hye⟩ := List.getElem?_eq_some.mp hy
      have h := set_set_swap_perm l i j hi hj
      simpa [List.get_eq_getElem, hxe, hye] using h

theorem fyLoop_perm (n : Nat) : ∀ (g : Nat) (l : List Question),
    (fyLoop n g l).2.Perm l := by
  induction n with
  | zero => exact fun g l => List.Perm.refl l
  | succ n ih =>
    intro g l
    simp only [fyLoop]
    exact (ih _ _).trans (listSwap_perm l (n + 1) _)

theorem pyShuffle_perm (seed : String) (l : List Question) :
    (pyShuffle seed l).Perm l :=
  fyLoop_perm _ _ l

theorem pyShuffle_length (seed : String) (l : List Question) :
    (pyShuffle seed l).length = l.length :=
  (pyShuffle_perm seed l).length_eq

/-! ### Score store: `load_scores` / `save_score` over `user_scores.csv` -/

/-- The persistent store: `none` models "`user_scores.csv` does not exist".
`load_scores` returns the parsed rows, or an empty table when the file is
missing (`os.path.exists` check in `App.py`). -/
def load_scores (file : Option (List ScoreRow)) : List ScoreRow :=
  match file with
  | some rows => rows
  | none => []

/-- `save_score(roll_number, name, score)`: reload the table, append one row,
write it back. -/
def save_score (file : Option (List ScoreRow)) (roll name : String) (score : Nat) :
    Option (List ScoreRow) :=
  some (load_scores file ++ [⟨roll, name, score⟩])

/-- The membership test `roll_number in scores_df["RollNumber"].values`. -/
def containsRoll (rows : List ScoreRow) (roll : String) : Bool :=
  rows.any fun r => r.rollNumber == roll

/-- Number of rows recorded for a given roll number. -/
def countRoll (rows : List ScoreRow) (roll : String) : Nat :=
  (rows.filter fun r => r.rollNumber == roll).length

/-! ### Session state machine (`st.session_state` and the script blocks) -/

/-- The quiz-relevant keys of `st.session_state` once a game has started. -/
structure SessionState where
  questions : List Question
  current_q : Nat
  responses : List (Nat × String)
  score : Nat
  roll_number : String
  name : String
  start_time : Nat
  finished : Bool
deriving DecidableEq, Repr

/-- Failure surfaced by the login block ("You have already played the game"). -/
inductive QuizError where
  | alreadyAttempted
deriving DecidableEq, Repr

/-- Python dict assignment `d[k] = v` on an insertion-ordered association
list: overwrite in place when the key exists, append otherwise. -/
def dictInsert (d : List (Nat × String)) (k : Nat) (v : String) :
    List (Nat × String) :=
  if d.any fun p => p.1 == k then
    d.map fun p => if p.1 == k then (k, v) else p
  else d ++ [(k, v)]

/-- The login block: refuse when the roll number already appears in the score
table, otherwise initialise a fresh session (`current_q = 0`, empty
responses, score 0, timer started at `now`). -/
def startGame (file : Option (List ScoreRow)) (pool : List Question)
    (roll name : String) (now : Nat) : Except QuizError SessionState :=
  if containsRoll (load_scores file) roll then .error .alreadyAttempted
  else .ok { questions := get_user_mcqs roll pool, current_q := 0, responses := [],
             score := 0, roll_number := roll, name := name, start_time := now,
             finished := false }

/-- The "Lock Answer" branch: record the choice for the current question,
credit the score when it matches the question's answer, advance the index and
restart the timer.  Guarded by the script's `not finished` and
`q_index < len(questions)` checks. -/
def lockAnswer (s : SessionState) (selected : String) (now : Nat) : SessionState :=
  if s.finished = false ∧ s.current_q < s.questions.length then
    let q := s.questions.getD s.current_q ⟨"", [], ""⟩
    { s with responses := dictInsert s.responses s.current_q selected,
             score := if selected = q.answer then s.score + 1 else s.score,
             current_q := s.current_q + 1,
             start_time := now }
  else s

/-- The timeout branch: when `remaining == 0` (30 seconds elapsed since
`start_time`), advance the index and restart the timer without touching
`responses` or `score`. -/
def checkTimeout (s : SessionState) (now : Nat) : SessionState :=
  if s.finished = false ∧ s.current_q < s.questions.length ∧
      30 ≤ now - s.start_time then
    { s with current_q := s.current_q + 1, start_time := now }
  else s

/-- The completion branch (`else` at the end of the quiz interface): when the
index has run past the question list and the session is not yet marked
finished, persist the score with `save_score` and set `finished`. -/
def completeStep (file : Option (List ScoreRow)) (s : SessionState) :
    Option (List ScoreRow) × SessionState :=
  if s.finished = false ∧ s.questions.length ≤ s.current_q then
    (save_score file s.roll_number s.name s.score, { s with finished := true })
  else (file, s)

/-- One user-visible interaction: submitting the login form, pressing
"Lock Answer", the timer reaching zero on a rerun, or a plain rerun (poll). -/
inductive Event where
  | login (roll name : String) (now : Nat)
  | lock (selected : String) (now : Nat)
  | timeout (now : Nat)
  | poll
deriving DecidableEq, Repr

/-- Whole-system state: the persistent file and the (optional) live session. -/
abbrev SysState := Option (List ScoreRow) × Option SessionState

/-- One rerun of the script handling one event.  The completion branch runs
on the rerun that follows an advancing event, so it is composed after
`lockAnswer` / `checkTimeout` and also fires on a plain poll. -/
def scriptRun (pool : List Question) (st : SysState) (e : Event) : SysState :=
  match st.2, e with
  | none, .login roll name now =>
    match startGame st.1 pool roll name now with
    | .ok s => (st.1, some s)
    | .error _ => st
  | some s, .lock selected now =>
    let p := completeStep st.1 (lockAnswer s selected now)
    (p.1, some p.2)
  | some s, .timeout now =>
    let p := completeStep st.1 (checkTimeout s now)
    (p.1, some p.2)
  | some s, .poll =>
    let p := completeStep st.1 s
    (p.1, some p.2)
  | _, _ => st

/-- Run a sequence of interactions from a starting system state. -/
def runTrace (pool : List Question) (st : SysState) : List Event → SysState
  | [] => st
  | e :: tr => runTrace pool (scriptRun pool st e) tr

/-! ### Leaderboard (`sort_values` + top-scorer extraction) -/

/-- Sort key of `sort_values(by="Score", ...)`. -/
def scoreLE (a b : ScoreRow) : Prop := a.score ≤ b.score

instance : DecidableRel scoreLE := fun a b => Nat.decLe a.score b.score

instance : IsTotal ScoreRow scoreLE := ⟨fun a b => Nat.le_total a.score b.score⟩

instance : IsTrans ScoreRow scoreLE := ⟨fun _ _ _ => Nat.le_trans⟩

/-- pandas `sort_values(by="Score", ascending=False)`: a stable ascending
argsort whose index order is then reversed (`nargsort` reverses the indexer
when `ascending` is false). -/
def sort_values_desc (rows : List ScoreRow) : List ScoreRow :=
  (List.insertionSort scoreLE rows).reverse

/-- The leaderboard block: sorted table, and — when it is non-empty — the top
score (`leaderboard.iloc[0]["Score"]`) together with the names of all rows
whose score equals it.  When the table is empty the block only reports that
no one has played and computes no top-scorer record. -/
def topScorersBlock (rows : List ScoreRow) : Option (Nat × List String) :=
  match sort_values_desc rows with
  | [] => none
  | top :: rest =>
    some (top.score,
      ((top :: rest).filter fun r => r.score == top.score).map fun r => r.name)

/-! ### Concrete data used by witnesses and counterexamples -/

/-- A one-question pool. -/
def qA : Question := ⟨"What is AI?", ["a", "b"], "a"⟩

/-- A 25-question pool with pairwise distinct prompts (the deployed
`ai_finance_mcqs.json` holds 25 questions per the spec's end-to-end
scenario). -/
def demoPool : List Question :=
  (List.range 25).map fun i => ⟨"Q" ++ toString i, ["a", "b"], "a"⟩

/-! ### Claims about `get_user_mcqs` (C3, C4, C5) -/

theorem startGame_ok (file : Option (List ScoreRow)) (pool : List Question)
    (roll name : String) (now : Nat) (s : SessionState)
    (h : startGame file pool roll name now = .ok s) :
    containsRoll (load_scores file) roll = false ∧
    s = ⟨get_user_mcqs roll pool, 0, [], 0, roll, name, now, false⟩ := by
  unfold startGame at h
  by_cases hc : containsRoll (load_scores file) roll = true
  · rw [if_pos hc] at h
    exact absurd h (by simp)
  · rw [if_neg hc] at h
    refine ⟨by simpa using hc, ?_⟩
    exact (Except.ok.injEq _ _ ▸ h).symm

/-- C3: for every pool and every identity, the derivation is deterministic —
the question set is a pure function of (identity, pool); in particular any
two sessions started for the same roll number over the same pool (whatever
the store contents, display name or starting instant) receive identical
ordered question sets. -/
theorem c3_derive_deterministic (pool : List Question) (roll : String)
    (f1 f2 : Option (List ScoreRow)) (name1 name2 : String) (now1 now2 : Nat)
    (s1 s2 : SessionState)
    (h1 : startGame f1 pool roll name1 now1 = .ok s1)
    (h2 : startGame f2 pool roll name2 now2 = .ok s2) :
    s1.questions = s2.questions ∧
    get_user_mcqs roll pool = get_user_mcqs roll pool := by
  obtain ⟨-, hs1⟩ := startGame_ok _ _ _ _ _ _ h1
  obtain ⟨-, hs2⟩ := startGame_ok _ _ _ _ _ _ h2
  subst hs1 hs2
  exact ⟨rfl, rfl⟩

theorem c3_witness :
    (⟨get_user_mcqs "R1" [qA], 0, [], 0, "R1", "Ada", 0, false⟩ :
        SessionState).questions =
      (⟨get_user_mcqs "R1" [qA], 0, [], 0, "R1", "Bob", 5, false⟩ :
        SessionState).questions ∧
    get_user_mcqs "R1" [qA] = get_user_mcqs "R1" [qA] :=
  c3_derive_deterministic [qA] "R1" none (some []) "Ada" "Bob" 0 5
    (⟨get_user_mcqs "R1" [qA], 0, [], 0, "R1", "Ada", 0, false⟩ : SessionState)
    (⟨get_user_mcqs "R1" [qA], 0, [], 0, "R1", "Bob", 5, false⟩ : SessionState)
    rfl rfl

/-- C4 counterexample: on a pool of a single question (fewer than 20), the
code does not fail — `questions[:20]` silently returns the whole (shorter)
shuffled pool. -/
theorem c4_counterexample :
    get_user_mcqs "R1" [qA] = [qA] ∧ (get_user_mcqs "R1" [qA]).length ≠ 20 :=
  ⟨rfl, by decide⟩

/-- C4 amended: for every pool shorter than 20 questions, `get_user_mcqs`
raises no error; it returns the entire shuffled pool (a permutation of the
pool, of the pool's length, not a length-20 set). -/
theorem c4_short_pool_returns_whole_pool (pool : List Question) (seed : String)
    (h : pool.length < 20) :
    (get_user_mcqs seed pool).length = pool.length ∧
    (get_user_mcqs seed pool).Perm pool := by
  have hp := pyShuffle_perm seed pool
  have hl : (pyShuffle seed pool).length ≤ 20 := by
    rw [pyShuffle_length]
    omega
  have ht : get_user_mcqs seed pool = pyShuffle seed pool :=
    List.take_of_length_le hl
  rw [ht, pyShuffle_length]
  exact ⟨rfl, hp⟩

theorem c4_witness :
    (get_user_mcqs "R1" [qA]).length = ([qA] : List Question).length ∧
    (get_user_mcqs "R1" [qA]).Perm [qA] :=
  c4_short_pool_returns_whole_pool [qA] "R1" (by decide)

/-- C5: when the pool holds at least 20 questions, the derived question set
has exactly 20 elements, each drawn from the pool; it never contains two
copies of the same question (the derivation is a truncation of a permutation
of the pool, so distinct pool prompts stay distinct in the set). -/
theorem c5_subset_validity (pool : List Question) (seed : String)
    (h : 20 ≤ pool.length) :
    (get_user_mcqs seed pool).length = 20 ∧
    (∀ q ∈ get_user_mcqs seed pool, q ∈ pool) ∧
    ((pool.map fun q => q.question).Nodup →
      ((get_user_mcqs seed pool).map fun q => q.question).Nodup) ∧
    (get_user_mcqs seed pool).Subperm pool := by
  have hsub : (get_user_mcqs seed pool).Sublist (pyShuffle seed pool) :=
    List.take_sublist _ _
  have hperm := pyShuffle_perm seed pool
  have hsp : (get_user_mcqs seed pool).Subperm pool :=
    hsub.subperm.trans hperm.subperm
  refine ⟨?_, fun q hq => hsp.subset hq, ?_, hsp⟩
  · show ((pyShuffle seed pool).take 20).length = 20
    rw [List.length_take, pyShuffle_length]
    omega
  · intro hnd
    have h1 : ((get_user_mcqs seed pool).map fun q => q.question).Sublist
        ((pyShuffle seed pool).map fun q => q.question) := hsub.map _
    have h2 : ((pyShuffle seed pool).map fun q => q.question).Perm
        (pool.map fun q => q.question) := hperm.map _
    exact h1.nodup (h2.nodup_iff.mpr hnd)

theorem c5_witness :
    20 ≤ demoPool.length ∧
    ((get_user_mcqs "R1" demoPool).length = 20 ∧
      (∀ q ∈ get_user_mcqs "R1" demoPool, q ∈ demoPool) ∧
      ((demoPool.map fun q => q.question).Nodup →
        ((get_user_mcqs "R1" demoPool).map fun q => q.question).Nodup) ∧
      (get_user_mcqs "R1" demoPool).Subperm demoPool) :=
  ⟨by decide, c5_subset_validity demoPool "R1" (by decide)⟩

/-! ### Claims about single transitions (C2, C7, C10) -/

/-- C2: when the store already holds a committed row for a roll number, the
login block fails with the already-attempted refusal and creates no
session — the system state is left unchanged. -/
theorem c2_start_refused_when_attempted (file : Option (List ScoreRow))
    (pool : List Question) (roll name : String) (now : Nat)
    (h : containsRoll (load_scores file) roll = true) :
    startGame file pool roll name now = .error .alreadyAttempted ∧
    scriptRun pool (file, none) (.login roll name now) = (file, none) := by
  have hs : startGame file pool roll name now = .error .alreadyAttempted := by
    unfold startGame
    rw [if_pos h]
  refine ⟨hs, ?_⟩
  show (match startGame file pool roll name now with
    | .ok s => (file, some s)
    | .error _ => ((file, none) : SysState)) = (file, none)
  rw [hs]

theorem c2_witness :
    startGame (some [⟨"R1", "Ada", 3⟩]) [qA] "R1" "Ada" 0 =
      .error .alreadyAttempted ∧
    scriptRun [qA] (some [⟨"R1", "Ada", 3⟩], none) (.login "R1" "Ada" 0) =
      (some [⟨"R1", "Ada", 3⟩], none) :=
  c2_start_refused_when_attempted (some [⟨"R1", "Ada", 3⟩]) [qA] "R1" "Ada" 0
    (by decide)

/-- C7: when the timeout branch fires on an active question (session not
finished, index in range, 30 seconds elapsed), the score and the responses
mapping are untouched, the index advances by exactly one, and the timer is
reset to the current instant. -/
theorem c7_timeout_credits_nothing (s : SessionState) (now : Nat)
    (h1 : s.finished = false) (h2 : s.current_q < s.questions.length)
    (h3 : 30 ≤ now - s.start_time) :
    (checkTimeout s now).score = s.score ∧
    (checkTimeout s now).responses = s.responses ∧
    (checkTimeout s now).current_q = s.current_q + 1 ∧
    (checkTimeout s now).start_time = now := by
  unfold checkTimeout
  rw [if_pos ⟨h1, h2, h3⟩]
  exact ⟨rfl, rfl, rfl, rfl⟩

theorem c7_witness :
    (checkTimeout ⟨[qA], 0, [], 0, "R1", "Ada", 0, false⟩ 31).score =
      (⟨[qA], 0, [], 0, "R1", "Ada", 0, false⟩ : SessionState).score ∧
    (checkTimeout ⟨[qA], 0, [], 0, "R1", "Ada", 0, false⟩ 31).responses =
      (⟨[qA], 0, [], 0, "R1", "Ada", 0, false⟩ : SessionState).responses ∧
    (checkTimeout ⟨[qA], 0, [], 0, "R1", "Ada", 0, false⟩ 31).current_q =
      (⟨[qA], 0, [], 0, "R1", "Ada", 0, false⟩ : SessionState).current_q + 1 ∧
    (checkTimeout ⟨[qA], 0, [], 0, "R1", "Ada", 0, false⟩ 31).start_time = 31 :=
  c7_timeout_credits_nothing ⟨[qA], 0, [], 0, "R1", "Ada", 0, false⟩ 31
    rfl (by decide) (by decide)

/-- C10: when `user_scores.csv` does not exist, `load_scores` returns the
empty table instead of failing, the membership check is false for every
roll number, and the login block successfully creates a fresh session. -/
theorem c10_fresh_deployment (pool : List Question) (roll name : String)
    (now : Nat) :
    load_scores none = [] ∧
    containsRoll (load_scores none) roll = false ∧
    startGame none pool roll name now =
      .ok ⟨get_user_mcqs roll pool, 0, [], 0, roll, name, now, false⟩ := by
  refine ⟨rfl, rfl, ?_⟩
  unfold startGame
  rw [if_neg (by simp [containsRoll, load_scores])]

/-! ### C1: one attempt row per identity, idempotent completion -/

theorem load_save_score (file : Option (List ScoreRow)) (roll name : String)
    (sc : Nat) :
    load_scores (save_score file roll name sc) =
      load_scores file ++ [⟨roll, name, sc⟩] := rfl

theorem countRoll_append (l1 l2 : List ScoreRow) (roll : String) :
    countRoll (l1 ++ l2) roll = countRoll l1 roll + countRoll l2 roll := by
  simp [countRoll, List.filter_append]

theorem countRoll_single_self (roll name : String) (sc : Nat) :
    countRoll [⟨roll, name, sc⟩] roll = 1 := by
  simp [countRoll]

theorem countRoll_single_other (roll name r : String) (sc : Nat)
    (h : r ≠ roll) : countRoll [⟨roll, name, sc⟩] r = 0 := by
  have hb : (roll == r) = false := by
    rw [beq_eq_false_iff_ne]
    exact fun he => h he.symm
  simp [countRoll, List.filter_cons, hb]

theorem countRoll_eq_zero_of_not_contains (rows : List ScoreRow) (roll : String)
    (h : containsRoll rows roll = false) : countRoll rows roll = 0 := by
  simp only [containsRoll, List.any_eq_false] at h
  simp only [countRoll, List.length_eq_zero, List.filter_eq_nil_iff]
  exact h

/-- System invariant: every roll number has at most one committed row, and a
live unfinished session belongs to a roll number with no committed row. -/
def sysInv (st : SysState) : Prop :=
  (∀ r, countRoll (load_scores st.1) r ≤ 1) ∧
  (∀ s, st.2 = some s → s.finished = false →
    countRoll (load_scores st.1) s.roll_number = 0)

theorem lockAnswer_roll (s : SessionState) (sel : String) (now : Nat) :
    (lockAnswer s sel now).roll_number = s.roll_number := by
  unfold lockAnswer
  split <;> rfl

theorem lockAnswer_finished (s : SessionState) (sel : String) (now : Nat) :
    (lockAnswer s sel now).finished = s.finished := by
  unfold lockAnswer
  split <;> rfl

theorem checkTimeout_roll (s : SessionState) (now : Nat) :
    (checkTimeout s now).roll_number = s.roll_number := by
  unfold checkTimeout
  split <;> rfl

theorem checkTimeout_finished (s : SessionState) (now : Nat) :
    (checkTimeout s now).finished = s.finished := by
  unfold checkTimeout
  split <;> rfl

/-- The completion branch preserves the invariant: when it fires it appends
the single row of a roll number that had none. -/
theorem completeStep_inv (f : Option (List ScoreRow)) (s : SessionState)
    (h1 : ∀ r, countRoll (load_scores f) r ≤ 1)
    (h2 : s.finished = false → countRoll (load_scores f) s.roll_number = 0) :
    (∀ r, countRoll (load_scores (completeStep f s).1) r ≤ 1) ∧
    ((completeStep f s).2.finished = false →
      countRoll (load_scores (completeStep f s).1)
        (completeStep f s).2.roll_number = 0) := by
  unfold completeStep
  by_cases hg : s.finished = false ∧ s.questions.length ≤ s.current_q
  · rw [if_pos hg]
    constructor
    · intro r
      rw [load_save_score, countRoll_append]
      by_cases hr : r = s.roll_number
      · subst hr
        rw [h2 hg.1, countRoll_single_self]
      · rw [countRoll_single_other _ _ _ _ hr]
        exact Nat.le_trans (Nat.le_of_eq (Nat.add_zero _)) (h1 r)
    · intro hfin
      exact absurd hfin (by simp)
  · rw [if_neg hg]
    exact ⟨h1, h2⟩

theorem scriptRun_sysInv (pool : List Question) (st : SysState) (e : Event)
    (h : sysInv st) : sysInv (scriptRun pool st e) := by
  obtain ⟨f, os⟩ := st
  obtain ⟨h1, h2⟩ := h
  cases os with
  | none =>
    cases e with
    | login roll name now =>
      show sysInv (match startGame f pool roll name now with
        | .ok s => (f, some s)
        | .error _ => ((f, none) : SysState))
      cases hs : startGame f pool roll name now with
      | error err => exact ⟨h1, by intro s hss; exact absurd hss (by simp)⟩
      | ok s =>
        obtain ⟨hc, hrec⟩ := startGame_ok _ _ _ _ _ _ hs
        refine ⟨h1, ?_⟩
        intro s' hs' _
        have hss : s' = s := (by simpa using hs' : s = s').symm
        subst hss
        rw [hrec]
        exact countRoll_eq_zero_of_not_contains _ _ hc
    | lock sel now =>
      have hred : scriptRun pool (f, none) (.lock sel now) = (f, none) := rfl
      rw [hred]
      exact ⟨h1, by intro s hss; exact absurd hss (by simp)⟩
    | timeout now =>
      have hred : scriptRun pool (f, none) (.timeout now) = (f, none) := rfl
      rw [hred]
      exact ⟨h1, by intro s hss; exact absurd hss (by simp)⟩
    | poll =>
      have hred : scriptRun pool (f, none) .poll = (f, none) := rfl
      rw [hred]
      exact ⟨h1, by intro s hss; exact absurd hss (by simp)⟩
  | some s =>
    have h2s : s.finished = false → countRoll (load_scores f) s.roll_number = 0 :=
      h2 s rfl
    cases e with
    | login roll name now =>
      have hred : scriptRun pool (f, some s) (.login roll name now) = (f, some s) :=
        rfl
      rw [hred]
      exact ⟨h1, h2⟩
    | lock sel now =>
      have h2' : (lockAnswer s sel now).finished = false →
          countRoll (load_scores f) (lockAnswer s sel now).roll_number = 0 := by
        rw [lockAnswer_finished, lockAnswer_roll]
        exact h2s
      obtain ⟨g1, g2⟩ := completeStep_inv f (lockAnswer s sel now) h1 h2'
      show sysInv ((completeStep f (lockAnswer s sel now)).1,
        some (completeStep f (lockAnswer s sel now)).2)
      refine ⟨g1, ?_⟩
      intro s' hs' hfin
      have hss : (completeStep f (lockAnswer s sel now)).2 = s' := by
        simpa using hs'
      rw [← hss] at hfin ⊢
      exact g2 hfin
    | timeout now =>
      have h2' : (checkTimeout s now).finished = false →
          countRoll (load_scores f) (checkTimeout s now).roll_number = 0 := by
        rw [checkTimeout_finished, checkTimeout_roll]
        exact h2s
      obtain ⟨g1, g2⟩ := completeStep_inv f (checkTimeout s now) h1 h2'
      show sysInv ((completeStep f (checkTimeout s now)).1,
        some (completeStep f (checkTimeout s now)).2)
      refine ⟨g1, ?_⟩
      intro s' hs' hfin
      have hss : (completeStep f (checkTimeout s now)).2 = s' := by
        simpa using hs'
      rw [← hss] at hfin ⊢
      exact g2 hfin
    | poll =>
      obtain ⟨g1, g2⟩ := completeStep_inv f s h1 h2s
      show sysInv ((completeStep f s).1, some (completeStep f s).2)
      refine ⟨g1, ?_⟩
      intro s' hs' hfin
      have hss : (completeStep f s).2 = s' := by
        simpa using hs'
      rw [← hss] at hfin ⊢
      exact g2 hfin

theorem runTrace_sysInv (pool : List Question) (tr : List Event) :
    ∀ st : SysState, sysInv st → sysInv (runTrace pool st tr) := by
  induction tr with
  | nil => exact fun st h => h
  | cons e tr ih => exact fun st h => ih _ (scriptRun_sysInv pool st e h)

theorem completeStep_idem (f : Option (List ScoreRow)) (s : SessionState) :
    completeStep (completeStep f s).1 (completeStep f s).2 = completeStep f s := by
  unfold completeStep
  by_cases hg : s.finished = false ∧ s.questions.length ≤ s.current_q
  · rw [if_pos hg]
    rw [if_neg (by simp)]
  · rw [if_neg hg, if_neg hg]

/-- C1: starting from a store with at most one row per identity and no live
session, every interaction sequence preserves "at most one attempt row per
identity"; and the completing transition is idempotent — run twice on the
same state it persists exactly what the first run persisted, the second run
being a no-op. -/
theorem c1_one_attempt_and_idempotent_completion (pool : List Question)
    (f0 : Option (List ScoreRow)) (tr : List Event)
    (h0 : ∀ r, countRoll (load_scores f0) r ≤ 1) :
    (∀ r, countRoll (load_scores (runTrace pool (f0, none) tr).1) r ≤ 1) ∧
    (∀ (f : Option (List ScoreRow)) (s : SessionState),
      completeStep (completeStep f s).1 (completeStep f s).2 = completeStep f s) := by
  constructor
  · have h := runTrace_sysInv pool tr (f0, none)
      ⟨h0, by intro s hs; exact absurd hs (by simp)⟩
    exact h.1
  · exact completeStep_idem

theorem c1_witness :
    (∀ r, countRoll (load_scores
      (runTrace [qA] ((none : Option (List ScoreRow)), none) []).1) r ≤ 1) ∧
    (∀ (f : Option (List ScoreRow)) (s : SessionState),
      completeStep (completeStep f s).1 (completeStep f s).2 = completeStep f s) :=
  c1_one_attempt_and_idempotent_completion [qA] none []
    (fun r => by simp [countRoll, load_scores])

/-! ### C6: relation between `current_q` and `responses` -/

/-- Recognise timeout interactions in a trace. -/
def isTimeoutEv : Event → Bool
  | .timeout _ => true
  | _ => false

theorem dictInsert_fresh (d : List (Nat × String)) (k : Nat) (v : String)
    (h : ∀ p ∈ d, p.1 ≠ k) : dictInsert d k v = d ++ [(k, v)] := by
  have ha : (d.any fun p => p.1 == k) = false := by
    rw [List.any_eq_false]
    intro p hp
    simpa using h p hp
  unfold dictInsert
  rw [ha]
  simp

/-- Responses bookkeeping: all recorded keys are below the current index. -/
def respKeys (s : SessionState) : Prop := ∀ p ∈ s.responses, p.1 < s.current_q

theorem lockAnswer_resp (s : SessionState) (sel : String) (now : Nat)
    (hkeys : respKeys s) :
    respKeys (lockAnswer s sel now) ∧
    (s.finished = false ∧ s.current_q < s.questions.length →
      (lockAnswer s sel now).responses.length = s.responses.length + 1 ∧
      (lockAnswer s sel now).current_q = s.current_q + 1) ∧
    (¬(s.finished = false ∧ s.current_q < s.questions.length) →
      lockAnswer s sel now = s) := by
  unfold lockAnswer
  by_cases hg : s.finished = false ∧ s.current_q < s.questions.length
  · rw [if_pos hg]
    have hfresh : ∀ p ∈ s.responses, p.1 ≠ s.current_q :=
      fun p hp => Nat.ne_of_lt (hkeys p hp)
    rw [dictInsert_fresh _ _ _ hfresh]
    refine ⟨?_, fun _ => ⟨by simp, rfl⟩, fun hn => absurd hg hn⟩
    intro p hp
    rcases List.mem_append.mp hp with hp' | hp'
    · exact Nat.lt_succ_of_lt (hkeys p hp')
    · have : p = (s.current_q, sel) := by simpa using hp'
      rw [this]
      exact Nat.lt_succ_self _
  · rw [if_neg hg]
    exact ⟨hkeys, fun hc => absurd hc hg, fun _ => rfl⟩

theorem checkTimeout_resp (s : SessionState) (now : Nat) (hkeys : respKeys s) :
    respKeys (checkTimeout s now) ∧
    (checkTimeout s now).responses = s.responses ∧
    (s.current_q ≤ (checkTimeout s now).current_q) := by
  unfold checkTimeout
  split
  · exact ⟨fun p hp => Nat.lt_succ_of_lt (hkeys p hp), rfl, Nat.le_succ _⟩
  · exact ⟨hkeys, rfl, Nat.le_refl _⟩

theorem completeStep_resp (f : Option (List ScoreRow)) (s : SessionState) :
    (completeStep f s).2.responses = s.responses ∧
    (completeStep f s).2.current_q = s.current_q := by
  unfold completeStep
  split <;> exact ⟨rfl, rfl⟩

/-- Per-session bookkeeping invariant: keys below the index and no more
responses than the index. -/
def c6Inv (os : Option SessionState) : Prop :=
  ∀ s, os = some s → respKeys s ∧ s.responses.length ≤ s.current_q

/-- Stronger version holding while no timeout has fired: the index equals
the number of responses. -/
def c6Eq (os : Option SessionState) : Prop :=
  ∀ s, os = some s → respKeys s ∧ s.current_q = s.responses.length

theorem scriptRun_c6Inv (pool : List Question) (st : SysState) (e : Event)
    (h : c6Inv st.2) : c6Inv (scriptRun pool st e).2 := by
  obtain ⟨f, os⟩ := st
  cases os with
  | none =>
    cases e with
    | login roll name now =>
      show c6Inv (match startGame f pool roll name now with
        | .ok s => ((f, some s) : SysState)
        | .error _ => (f, none)).2
      cases hs : startGame f pool roll name now with
      | error err => exact fun s hss => absurd hss (by simp)
      | ok s =>
        intro s' hs'
        have hss : s' = s := (by simpa using hs' : s = s').symm
        subst hss
        obtain ⟨-, hrec⟩ := startGame_ok _ _ _ _ _ _ hs
        rw [hrec]
        exact ⟨fun p hp => absurd hp (by simp), by simp⟩
    | lock sel now =>
      show c6Inv ((f, none) : SysState).2
      exact fun s hss => absurd hss (by simp)
    | timeout now =>
      show c6Inv ((f, none) : SysState).2
      exact fun s hss => absurd hss (by simp)
    | poll =>
      show c6Inv ((f, none) : SysState).2
      exact fun s hss => absurd hss (by simp)
  | some s =>
    obtain ⟨hk, hlen⟩ := h s rfl
    cases e with
    | login roll name now => exact fun s' hs' => h s' hs'
    | lock sel now =>
      show c6Inv (some (completeStep f (lockAnswer s sel now)).2)
      intro s' hs'
      have hss : (completeStep f (lockAnswer s sel now)).2 = s' := by
        simpa using hs'
      subst hss
      obtain ⟨cr, cq⟩ := completeStep_resp f (lockAnswer s sel now)
      obtain ⟨k1, k2, k3⟩ := lockAnswer_resp s sel now hk
      constructor
      · intro p hp
        rw [cq]
        exact k1 p (cr ▸ hp)
      · rw [cr, cq]
        by_cases hg : s.finished = false ∧ s.current_q < s.questions.length
        · obtain ⟨e1, e2⟩ := k2 hg
          rw [e1, e2]
          exact Nat.succ_le_succ hlen
        · rw [k3 hg]
          exact hlen
    | timeout now =>
      show c6Inv (some (completeStep f (checkTimeout s now)).2)
      intro s' hs'
      have hss : (completeStep f (checkTimeout s now)).2 = s' := by
        simpa using hs'
      subst hss
      obtain ⟨cr, cq⟩ := completeStep_resp f (checkTimeout s now)
      obtain ⟨k1, k2, k3⟩ := checkTimeout_resp s now hk
      constructor
      · intro p hp
        rw [cq]
        exact k1 p (cr ▸ hp)
      · rw [cr, cq, k2]
        exact Nat.le_trans hlen k3
    | poll =>
      show c6Inv (some (completeStep f s).2)
      intro s' hs'
      have hss : (completeStep f s).2 = s' := by
        simpa using hs'
      subst hss
      obtain ⟨cr, cq⟩ := completeStep_resp f s
      exact ⟨fun p hp => cq ▸ hk p (cr ▸ hp), by rw [cr, cq]; exact hlen⟩

theorem scriptRun_c6Eq (pool : List Question) (st : SysState) (e : Event)
    (he : isTimeoutEv e = false) (h : c6Eq st.2) : c6Eq (scriptRun pool st e).2 := by
  obtain ⟨f, os⟩ := st
  cases os with
  | none =>
    cases e with
    | login roll name now =>
      show c6Eq (match startGame f pool roll name now with
        | .ok s => ((f, some s) : SysState)
        | .error _ => (f, none)).2
      cases hs : startGame f pool roll name now with
      | error err => exact fun s hss => absurd hss (by simp)
      | ok s =>
        intro s' hs'
        have hss : s' = s := (by simpa using hs' : s = s').symm
        subst hss
        obtain ⟨-, hrec⟩ := startGame_ok _ _ _ _ _ _ hs
        rw [hrec]
        exact ⟨fun p hp => absurd hp (by simp), by simp⟩
    | lock sel now =>
      show c6Eq ((f, none) : SysState).2
      exact fun s hss => absurd hss (by simp)
    | timeout now =>
      show c6Eq ((f, none) : SysState).2
      exact fun s hss => absurd hss (by simp)
    | poll =>
      show c6Eq ((f, none) : SysState).2
      exact fun s hss => absurd hss (by simp)
  | some s =>
    obtain ⟨hk, hlen⟩ := h s rfl
    cases e with
    | login roll name now => exact fun s' hs' => h s' hs'
    | lock sel now =>
      show c6Eq (some (completeStep f (lockAnswer s sel now)).2)
      intro s' hs'
      have hss : (completeStep f (lockAnswer s sel now)).2 = s' := by
        simpa using hs'
      subst hss
      obtain ⟨cr, cq⟩ := completeStep_resp f (lockAnswer s sel now)
      obtain ⟨k1, k2, k3⟩ := lockAnswer_resp s sel now hk
      constructor
      · intro p hp
        rw [cq]
        exact k1 p (cr ▸ hp)
      · rw [cr, cq]
        by_cases hg : s.finished = false ∧ s.current_q < s.questions.length
        · obtain ⟨e1, e2⟩ := k2 hg
          rw [e1, e2, hlen]
        · rw [k3 hg]
          exact hlen
    | timeout now => exact absurd he (by simp [isTimeoutEv])
    | poll =>
      show c6Eq (some (completeStep f s).2)
      intro s' hs'
      have hss : (completeStep f s).2 = s' := by
        simpa using hs'
      subst hss
      obtain ⟨cr, cq⟩ := completeStep_resp f s
      exact ⟨fun p hp => cq ▸ hk p (cr ▸ hp), by rw [cr, cq]; exact hlen⟩

theorem runTrace_c6 (pool : List Question) (tr : List Event) :
    ∀ st : SysState, c6Inv st.2 → c6Inv (runTrace pool st tr).2 := by
  induction tr with
  | nil => exact fun st h => h
  | cons e tr ih => exact fun st h => ih _ (scriptRun_c6Inv pool st e h)

theorem runTrace_c6Eq (pool : List Question) (tr : List Event)
    (htr : (tr.all fun e => !isTimeoutEv e) = true) :
    ∀ st : SysState, c6Eq st.2 → c6Eq (runTrace pool st tr).2 := by
  induction tr with
  | nil => exact fun st h => h
  | cons e tr ih =>
    intro st h
    rw [List.all_cons, Bool.and_eq_true] at htr
    have he : isTimeoutEv e = false := by
      cases hb : isTimeoutEv e
      · rfl
      · rw [hb] at htr
        exact absurd htr.1 (by simp)
    exact ih htr.2 _ (scriptRun_c6Eq pool st e he h)

/-- C6 counterexample: the state reached from a fresh deployment by a login
followed by one timeout has `current_q = 1` but an empty `responses` mapping,
so `currentIndex == len(responses)` fails in a reachable quiescent state. -/
theorem c6_counterexample :
    ((runTrace [qA] ((none : Option (List ScoreRow)), none)
        [Event.login "R1" "Ada" 0, Event.timeout 31]).2.map
      fun s => (s.current_q, s.responses.length)) = some (1, 0) := by
  decide

/-- C6 amended: in every reachable quiescent state, `len(responses)` never
exceeds `currentIndex`, and the two are equal as long as no timeout
interaction has occurred; each timeout advance widens the gap by one because
it adds no `responses` entry. -/
theorem c6_index_vs_responses (pool : List Question)
    (f0 : Option (List ScoreRow)) (tr : List Event) (s : SessionState)
    (hs : (runTrace pool (f0, none) tr).2 = some s) :
    s.responses.length ≤ s.current_q ∧
    ((tr.all fun e => !isTimeoutEv e) = true →
      s.current_q = s.responses.length) := by
  have h0 : c6Inv ((f0, none) : SysState).2 :=
    fun s' hs' => absurd hs' (by simp)
  have h1 := runTrace_c6 pool tr (f0, none) h0 s hs
  refine ⟨h1.2, ?_⟩
  intro htr
  have h0e : c6Eq ((f0, none) : SysState).2 :=
    fun s' hs' => absurd hs' (by simp)
  exact (runTrace_c6Eq pool tr htr (f0, none) h0e s hs).2

theorem c6_witness :
    (⟨get_user_mcqs "R1" [qA], 0, [], 0, "R1", "Ada", 0, false⟩ :
        SessionState).responses.length ≤
      (⟨get_user_mcqs "R1" [qA], 0, [], 0, "R1", "Ada", 0, false⟩ :
        SessionState).current_q ∧
    (((([Event.login "R1" "Ada" 0] : List Event).all
        fun e => !isTimeoutEv e) = true) →
      (⟨get_user_mcqs "R1" [qA], 0, [], 0, "R1", "Ada", 0, false⟩ :
        SessionState).current_q =
      (⟨get_user_mcqs "R1" [qA], 0, [], 0, "R1", "Ada", 0, false⟩ :
        SessionState).responses.length) :=
  c6_index_vs_responses [qA] none [Event.login "R1" "Ada" 0]
    ⟨get_user_mcqs "R1" [qA], 0, [], 0, "R1", "Ada", 0, false⟩ rfl

/-! ### C8, C9: leaderboard -/

/-- Concrete attempts for the spec's leaderboard example. -/
def rowA : ScoreRow := ⟨"1", "A", 5⟩

/-- Second attempt of the example, score 9, submitted before `rowC`. -/
def rowB : ScoreRow := ⟨"2", "B", 9⟩

/-- Third attempt of the example, score 9, submitted after `rowB`. -/
def rowC : ScoreRow := ⟨"3", "C", 9⟩

theorem sort_values_desc_perm (rows : List ScoreRow) :
    (sort_values_desc rows).Perm rows :=
  (List.reverse_perm _).trans (List.perm_insertionSort _ _)

theorem sort_values_desc_sorted (rows : List ScoreRow) :
    (sort_values_desc rows).Sorted fun a b => b.score ≤ a.score := by
  have hs := List.sorted_insertionSort scoreLE rows
  show ((List.insertionSort scoreLE rows).reverse).Pairwise
    fun a b => b.score ≤ a.score
  rw [List.pairwise_reverse]
  exact hs

/-- C8 counterexample: on the spec's own example `[A:5, B:9, C:9]` the sort
is not stable in the claimed direction — the two score-9 attempts come out
as `C` before `B`, the reverse of their submission order, because the
descending sort reverses the stable ascending order. -/
theorem c8_counterexample :
    sort_values_desc [rowA, rowB, rowC] = [rowC, rowB, rowA] ∧
    sort_values_desc [rowA, rowB, rowC] ≠ [rowB, rowC, rowA] := by
  constructor
  · decide
  · decide

/-- C8 amended: the ranking returns the same multiset of attempts ordered by
score descending, but attempts with equal scores appear in the reverse of
their original submission order rather than in submission order (the
descending sort reverses a stable ascending sort). -/
theorem c8_rank_desc_multiset (rows : List ScoreRow) :
    (sort_values_desc rows).Perm rows ∧
    (sort_values_desc rows).Sorted fun a b => b.score ≤ a.score :=
  ⟨sort_values_desc_perm rows, sort_values_desc_sorted rows⟩

/-- C9 counterexample: for an empty attempt table the leaderboard block
computes no top-scorer record at all (it only reports that no one has
played); there is no result carrying an empty names list. -/
theorem c9_counterexample :
    topScorersBlock [] = none ∧
    ¬∃ p : Nat × List String, topScorersBlock [] = some p := by
  have h : topScorersBlock [] = none := rfl
  refine ⟨h, ?_⟩
  intro ⟨p, hp⟩
  rw [h] at hp
  exact absurd hp (by simp)

/-- C9 amended: for every non-empty attempt table, the block returns the
maximum score together with the names of exactly those attempts whose score
equals that maximum; for an empty table it produces no top-scorer record. -/
theorem c9_top_scorers (rows : List ScoreRow) (h : rows ≠ []) :
    ∃ m names, topScorersBlock rows = some (m, names) ∧
      (∃ r ∈ rows, r.score = m) ∧ (∀ r ∈ rows, r.score ≤ m) ∧
      names.Perm ((rows.filter fun r => r.score == m).map fun r => r.name) := by
  have hperm := sort_values_desc_perm rows
  have hsorted := sort_values_desc_sorted rows
  cases hlb : sort_values_desc rows with
  | nil =>
    rw [hlb] at hperm
    exact absurd hperm.symm.eq_nil h
  | cons top rest =>
    rw [hlb] at hperm hsorted
    refine ⟨top.score,
      ((top :: rest).filter fun r => r.score == top.score).map (fun r => r.name),
      ?_, ?_, ?_, ?_⟩
    · unfold topScorersBlock
      rw [hlb]
    · exact ⟨top, hperm.subset (List.mem_cons_self top rest), rfl⟩
    · intro r hr
      have hr' : r ∈ top :: rest := hperm.symm.subset hr
      rcases List.mem_cons.mp hr' with he | hm
      · rw [he]
      · exact List.rel_of_sorted_cons hsorted r hm
    · exact (hperm.filter _).map _

theorem c9_witness :
    ∃ m names, topScorersBlock [rowA, rowB, rowC] = some (m, names) ∧
      (∃ r ∈ [rowA, rowB, rowC], r.score = m) ∧
      (∀ r ∈ [rowA, rowB, rowC], r.score ≤ m) ∧
      names.Perm ((([rowA, rowB, rowC] : List ScoreRow).filter
        fun r => r.score == m).map fun r => r.name) :=
  c9_top_scorers [rowA, rowB, rowC] (by decide)

end FinanceQuiz
